import Mathlib

/-!
Verification development for the LDAQ session orchestrator (`LDAQ/core.py`).

The definitions below are a shallow embedding of the orchestrator's
data model and operations:

* numbers that Python holds as `float`/`int` are modelled as `ℚ`/`ℤ`/`ℕ`
  (sample rates, durations and timestamps are exact rationals here);
* Python's `int(x)` truncation toward zero is `pyInt`;
* stateful methods become explicit functions on state records;
* fallible operations (`raise`, `KeyError`, `IndexError`,
  `UnboundLocalError`) return `Except String _` or `Option _`;
* the on-disk pickle files are modelled as an abstract mapping from
  filename to file data (size plus the pickled accumulator).

Each definition names the Python symbol it embeds.  The file is laid
out with all definitions first, followed by the helper lemmas and the
claim theorems.
-/

namespace LDAQ

/-- Python `int(x)` applied to a rational: truncation toward zero
(`math.trunc`). -/
def pyInt (q : ℚ) : ℤ :=
  if 0 ≤ q then ⌊q⌋ else ⌈q⌉

/-- Python `str.lower()` for the ASCII strings the orchestrator handles
(duration units and trigger types): lowercase every character. -/
def pyLower (s : String) : String :=
  String.mk (s.data.map Char.toLower)

/-- Python `str.zfill(width)` for the non-negative strings produced by
`str(file_index)`: pad on the left with `'0'` up to `width` characters
(the sign-handling branch of `zfill` is unreachable for `Nat` indices). -/
def zfill (width : Nat) (s : String) : String :=
  if s.length < width then String.mk (List.replicate (width - s.length) '0') ++ s else s

/-- Python `os.path.splitext` restricted to the plain basenames the
orchestrator produces (no path separators, no leading dot): split the
string before its last `'.'`; when there is no dot the extension is
empty. -/
def splitext (s : String) : String × String :=
  match (s.toList.reverse.indexOf? '.') with
  | none => (s, "")
  | some revIdx =>
      let cut := s.toList.length - 1 - revIdx
      (String.mk (s.toList.take cut), String.mk (s.toList.drop cut))

/-- Filename used by `Core._open_and_save` for the file-size check
(`core.py:523-524`): the base suffixed with the 4-digit zero-padded
index, `f"{file_name_base}_{file_index_str}{ext}"` with
`file_index_str = str(file_index).zfill(4)`. -/
def checkFileName (base ext : String) (idx : Nat) : String :=
  base ++ "_" ++ zfill 4 (Nat.repr idx) ++ ext

/-- Filename used by `Core._open_and_save` for the file actually loaded
and written (`core.py:543`): `f"{file_name_base}_{file_index}{ext}"`,
with the raw, unpadded index. -/
def writeFileName (base ext : String) (idx : Nat) : String :=
  base ++ "_" ++ Nat.repr idx ++ ext

/-! ## Trigger propagation: `Core.set_trigger` (`core.py:269-334`) -/

/-- Effect of `Core.set_trigger` on one acquisition source: either the
verbatim `acq.set_trigger(...)` call made to the designated trigger
source (`core.py:305-312`) or the `acq.update_trigger_parameters(...)`
call made to every other source (`core.py:320` / `core.py:324`).
Durations are recorded as rationals; in the `"samples"` unit the value
recorded is the integer sample count the code computes. -/
inductive TrigEffect where
  | setTrig (level : ℚ) (channel : Nat) (duration : ℚ) (durationUnit : String)
      (presamples : ℤ) (ttype : String)
  | update (duration : ℚ) (durationUnit : String) (presamples : ℤ)
deriving DecidableEq, Repr

/-- Loop state threaded through the `for idx, acq in enumerate(...)`
loop of `Core.set_trigger`: the per-source calls made so far, the
Python local `source_sample_rate` (unbound until the first non-source
iteration assigns it at `core.py:314`, hence an `Option`), and
`self.measurement_duration` (unset until first assigned at
`core.py:330` / `core.py:332`). -/
structure SetTrigState where
  effects : List TrigEffect
  source_sample_rate : Option ℚ
  measurement_duration : Option ℚ
deriving Repr

/-- Body of the `for idx, acq in enumerate(self.acquisitions)` loop of
`Core.set_trigger` (`core.py:303-334`), iterated over the remaining
acquisition sample rates with `idx` the index of the head.  `rates` is
the full `self.acquisitions` sample-rate list (needed for
`self.acquisitions[source].sample_rate`), `duration` is the value after
the `int()` conversion of `core.py:295-296`, and `unit` is already
lowercased.  A raised `KeyError` (invalid unit, `core.py:327`),
`IndexError` (bad `source`) or `UnboundLocalError`
(`source_sample_rate` read before assignment at `core.py:332`) aborts
the loop as an `Except.error`. -/
def setTriggerLoop (rates : List ℚ) (source : Nat) (level : ℚ) (channel : Nat)
    (duration : ℚ) (unit : String) (presamples : ℤ) (ttype : String) :
    Nat → List ℚ → SetTrigState → Except String SetTrigState
  | _, [], st => .ok st
  | idx, r :: rest, st => do
      let st₁ : SetTrigState ←
        if idx = source then
          pure { st with effects := st.effects ++
            [.setTrig level channel duration unit presamples ttype] }
        else
          match rates[source]? with
          | none => .error "IndexError: list index out of range"
          | some srcRate =>
              let presamples_seconds : ℚ := (presamples : ℚ) / srcRate
              let presamples_other : ℤ := pyInt (presamples_seconds * r)
              if unit = "seconds" then
                pure { st with
                  effects := st.effects ++ [.update duration "seconds" presamples_other],
                  source_sample_rate := some srcRate }
              else if unit = "samples" then
                let duration_seconds : ℚ := duration / srcRate
                let duration_samples : ℤ := pyInt (duration_seconds * r)
                pure { st with
                  effects := st.effects ++
                    [.update (duration_samples : ℚ) "samples" presamples_other],
                  source_sample_rate := some srcRate }
              else
                .error "KeyError: Invalid duration unit specified. Only seconds and samples are possible."
      let st₂ : SetTrigState ←
        if unit = "seconds" then
          pure { st₁ with measurement_duration := some duration }
        else if unit = "samples" then
          match st₁.source_sample_rate with
          | none => .error "UnboundLocalError: source_sample_rate referenced before assignment"
          | some srcRate => pure { st₁ with measurement_duration := some (duration / srcRate) }
        else
          pure st₁
      setTriggerLoop rates source level channel duration unit presamples ttype (idx + 1) rest st₂

/-- `Core.set_trigger` (`core.py:269-334`) with the trigger source given
by index (the string-name resolution of `core.py:299-300` is outside
this claim's scope).  Lowercases the unit and type, converts a
`"samples"` duration to `int` (`core.py:292-296`), then runs the
per-source loop.  Returns the ordered list of calls made to the
acquisition sources together with the final `measurement_duration`. -/
def setTrigger (rates : List ℚ) (source : Nat) (level : ℚ) (channel : Nat)
    (duration : ℚ) (durationUnit : String) (presamples : ℤ) (triggerType : String) :
    Except String (List TrigEffect × Option ℚ) :=
  let unit := pyLower durationUnit
  let ttype := pyLower triggerType
  let duration : ℚ := if unit = "samples" then ((pyInt duration : ℤ) : ℚ) else duration
  match setTriggerLoop rates source level channel duration unit presamples ttype
    0 rates ⟨[], none, none⟩ with
  | .error e => .error e
  | .ok st => .ok (st.effects, st.measurement_duration)

/-- Specification-side formula for the propagated presample count,
written from the spec's words with the rounding replaced by the code's
truncation: `presamples_t = trunc(presamples_s / Rs * Rt)`. -/
def propagatedPresamples (Rs Rt : ℚ) (presamples : ℤ) : ℤ :=
  pyInt ((presamples : ℚ) / Rs * Rt)

/-- Specification-side formula for the propagated `"samples"` duration,
written from the spec's words with the rounding replaced by the code's
truncation: the duration is first truncated to an integer sample count,
converted to seconds via `Rs`, then to the target's samples via `Rt`. -/
def propagatedDurationSamples (Rs Rt : ℚ) (duration : ℚ) : ℤ :=
  pyInt (((pyInt duration : ℤ) : ℚ) / Rs * Rt)

/-- Closed-form list of the calls `Core.set_trigger` makes in the
`"seconds"` case, used to state the propagation contract: position
`idx` receives the verbatim `set_trigger` call when it is the source
and otherwise an `update_trigger_parameters` call with the truncated
presample count. -/
def secondsCalls (rs : ℚ) (source : Nat) (level : ℚ) (channel : Nat) (duration : ℚ)
    (presamples : ℤ) (ttype : String) : Nat → List ℚ → List TrigEffect
  | _, [] => []
  | idx, r :: rest =>
      (if idx = source then
        TrigEffect.setTrig level channel duration "seconds" presamples ttype
       else
        TrigEffect.update duration "seconds" (propagatedPresamples rs r presamples)) ::
      secondsCalls rs source level channel duration presamples ttype (idx + 1) rest

/-- Closed-form list of the calls `Core.set_trigger` makes in the
`"samples"` case (with `dInt` the integer duration after the `int()`
conversion of `core.py:296`): non-source positions receive the
converted sample count and presamples. -/
def samplesCalls (rs : ℚ) (source : Nat) (level : ℚ) (channel : Nat) (dInt : ℤ)
    (presamples : ℤ) (ttype : String) : Nat → List ℚ → List TrigEffect
  | _, [] => []
  | idx, r :: rest =>
      (if idx = source then
        TrigEffect.setTrig level channel (dInt : ℚ) "samples" presamples ttype
       else
        TrigEffect.update ((pyInt ((dInt : ℚ) / rs * r) : ℤ) : ℚ) "samples"
          (propagatedPresamples rs r presamples)) ::
      samplesCalls rs source level channel dInt presamples ttype (idx + 1) rest

/-! ## Session state and the monitor: `Core.__init__`, `Core._check_events`,
`Core.start_acquisition`, `Core._stop_event_handling` -/

/-- View of one acquisition source as read by the orchestrator's loops:
its `is_running` and `is_ready` flags and the result of its
`is_triggered()` poll. -/
structure AcqView where
  is_running : Bool
  is_ready : Bool
  is_triggered : Bool
deriving DecidableEq, Repr

/-- Shared session state of `Core` as used by `_check_events`,
`start_acquisition` and `_stop_event_handling`: the three worker
category views, the global flags (`core.py:85`, `core.py:105-106`),
the readiness latch the code stores on `acquisitions[0]`
(`all_acquisitions_ready`), the `autostart` and `first` flags, and the
`trigger_source_index` recorded by `set_trigger` (`core.py:301`). -/
structure CoreState where
  acquisitions : List AcqView
  generations : List Bool
  controls : List Bool
  is_running_global : Bool
  triggered_globally : Bool
  stop_event : Bool
  all_acquisitions_ready : Bool
  autostart : Bool
  first : Bool
  trigger_source_index : Option Nat
deriving DecidableEq, Repr

/-- `Core.__init__` duplicate-name check (`core.py:37-40`): Python's
`any(names.count(s) > 1 for s in set(names))`. -/
def hasDuplicateNames (names : List String) : Bool :=
  names.any fun n => 1 < names.count n

/-- `Core.__init__` (`core.py:26-44`): accepts the acquisition and
generation source lists (an empty acquisition list passes — only
duplicate names are rejected). -/
def coreInit (acquisition_names generation_names : List String) :
    Except String (List String × List String) :=
  if hasDuplicateNames acquisition_names then
    .error "Two or more acquisition sources have the same name. Please make them unique."
  else if hasDuplicateNames generation_names then
    .error "Two or more generation sources have the same name. Please make them unique."
  else .ok (acquisition_names, generation_names)

/-- `Core.start_acquisition` (`core.py:363-371`): a no-op when
`triggered_globally` is already set; otherwise sets the flag and then,
under `acquisitions[0].lock_acquisition`, calls
`acquisitions[0].activate_trigger()`.  The returned list records the
indices of the acquisition sources whose `activate_trigger` was
invoked.  With an empty acquisition list the `[0]` access raises
`IndexError` (after the flag assignment). -/
def start_acquisition (s : CoreState) : Except String (CoreState × List Nat) :=
  if s.triggered_globally then .ok (s, [])
  else
    let s := { s with triggered_globally := true }
    match s.acquisitions with
    | [] => .error "IndexError: list index out of range"
    | _ :: _ => .ok (s, [0])

/-- One iteration of the `while self.is_running_global` body of
`Core._check_events` (`core.py:206-245`): recompute the three
per-category running flags and assign their conjunction to
`is_running_global`; then access `acquisitions[0]` for the readiness
latch (an `IndexError` on an empty list), possibly latching readiness
and autostarting; then latch `triggered_globally` from the sources'
`is_triggered()` polls; then clear the one-shot `first` print flag.
The optional `additional_check_functions` hook (`core.py:240-243`) is
not registered in the sessions modelled here.  The returned list
records `activate_trigger` invocations as in `start_acquisition`. -/
def check_events_tick (s : CoreState) : Except String (CoreState × List Nat) :=
  let acquisition_running :=
    !((s.acquisitions.all fun a => !a.is_running) && decide (0 < s.acquisitions.length))
  let generation_running :=
    !((s.generations.all fun g => !g) && decide (0 < s.generations.length))
  let control_running :=
    !((s.controls.all fun c => !c) && decide (0 < s.controls.length))
  let s := { s with
    is_running_global := acquisition_running && generation_running && control_running }
  match s.acquisitions with
  | [] => .error "IndexError: list index out of range"
  | _ :: _ =>
    let step1 : Except String (CoreState × List Nat) :=
      if !s.all_acquisitions_ready then
        if s.acquisitions.all (fun a => a.is_ready) then
          let s := { s with all_acquisitions_ready := true }
          if s.autostart then start_acquisition s else .ok (s, [])
        else .ok (s, [])
      else .ok (s, [])
    match step1 with
    | .error e => .error e
    | .ok (s, acts) =>
      let s := if (s.acquisitions.any fun a => a.is_triggered) && !s.triggered_globally then
        { s with triggered_globally := true } else s
      let s := if s.first && s.triggered_globally then { s with first := false } else s
      .ok (s, acts)

/-- Iterated monitor ticks (the `while self.is_running_global` loop of
`Core._check_events` runs the tick repeatedly; `time.sleep(0.05)`
separates iterations). -/
def runTicks : Nat → CoreState → Except String CoreState
  | 0, s => .ok s
  | n + 1, s =>
      match check_events_tick s with
      | .error e => .error e
      | .ok (s', _) => runTicks n s'

/-- `Core._stop_event_handling` (`core.py:175-189`): the wrapper around
every task body.  On an uncaught exception it prints the traceback and
sets `self.stop_event` — and nothing else: no other session state is
touched (no task ever reads `stop_event`; see the TODO at
`core.py:154-155`). -/
def stop_event_handling (s : CoreState) (body : Except String Unit) : CoreState :=
  match body with
  | .ok _ => s
  | .error _ => { s with stop_event := true }

/-- Step relation of the monitor task: an iteration of
`Core._check_events` runs only while `is_running_global` is true and
transforms the session state by one tick. -/
def MonStep (s t : CoreState) : Prop :=
  s.is_running_global = true ∧ ∃ acts, check_events_tick s = .ok (t, acts)

/-- Specification-side liveness of one worker category, written from the
spec's words: a category is alive unless it is non-empty and every
member reports not running; an empty category is vacuously alive. -/
def categoryAlive (memberRunning : List Bool) : Prop :=
  ¬(memberRunning ≠ [] ∧ ∀ f ∈ memberRunning, f = false)

/-! ## Periodic persistence: `Core._save_measurement_periodically`
(`core.py:467-506`) -/

/-- Observation made by one iteration of the persistence loop: the
wall-clock `time.time()` during this iteration (the iteration's several
clock reads are collapsed into one observation), the values of the
shared flags `is_running_global` and `triggered_globally` read during
it, and the timestamped name `datetime.now()` would mint if this
iteration created the base filename. -/
structure SaveIter where
  now : ℚ
  is_running_global : Bool
  triggered_globally : Bool
  minted_name : String
deriving Repr

/-- Loop state of `_save_measurement_periodically`: `start_time`,
`file_index`, `file_created`, the Python local `file_name` (unbound
until the first save tick, hence an `Option`), `delay_start`, and the
ordered record of `_open_and_save` calls (filename and index passed). -/
structure SaveState where
  start_time : ℚ
  file_index : Nat
  file_created : Bool
  file_name : Option String
  delay_start : ℚ
  saves : List (String × Nat)
deriving DecidableEq, Repr

/-- `delay_saving = 0.5` seconds (`core.py:477`). -/
def delay_saving : ℚ := 1 / 2

/-- The `while running` loop of `_save_measurement_periodically`
(`core.py:480-502`) over a finite trace of iteration observations,
parameterized by the index-updating effect of `_open_and_save`
(`saveFn`, given the current filename and index).  Each iteration:
refresh `delay_start` while the session is running, otherwise decide to
fall out of the loop once the 0.5 s grace has elapsed (the iteration
body still finishes first, as in the source); then, if the global
trigger has fired and the save interval has elapsed since the last
save, perform a save tick, minting the timestamped base filename on the
first one. -/
def saveLoop (save_interval : ℚ) (saveFn : String → Nat → Nat) :
    List SaveIter → SaveState → SaveState
  | [], st => st
  | it :: rest, st =>
      let st := if it.is_running_global then { st with delay_start := it.now } else st
      let running : Bool :=
        if it.is_running_global then true
        else if delay_saving < it.now - st.delay_start then false
        else true
      let st :=
        if it.triggered_globally then
          if save_interval ≤ it.now - st.start_time then
            let st := { st with start_time := it.now }
            let st := if !st.file_created then
              { st with file_name := some it.minted_name, file_created := true } else st
            match st.file_name with
            | some fn =>
                { st with file_index := saveFn fn st.file_index
                          saves := st.saves ++ [(fn, st.file_index)] }
            | none => st
          else st
        else st
      if running then saveLoop save_interval saveFn rest st else st

/-- `Core._save_measurement_periodically` (`core.py:467-506`): initial
state (`start_time = delay_start =` the thread's start instant `t0`,
`file_index = 0`, `file_created = False`), the polling loop over the
given trace, then — when the global trigger has fired
(`final_triggered`, the read of `self.triggered_globally` at
`core.py:504`) — one final `_open_and_save` after a 0.5 s sleep.  That
final call reads the Python local `file_name`; when no in-loop save
tick ever ran, that local was never assigned and the call dies with
`UnboundLocalError` (modelled as `Except.error`), performing no save. -/
def save_measurement_periodically (save_interval : ℚ) (saveFn : String → Nat → Nat)
    (t0 : ℚ) (trace : List SaveIter) (final_triggered : Bool) :
    Except String SaveState :=
  let st := saveLoop save_interval saveFn trace ⟨t0, 0, false, none, t0, []⟩
  if final_triggered then
    match st.file_name with
    | none => .error "UnboundLocalError: local variable file_name referenced before assignment"
    | some fn => .ok { st with file_index := saveFn fn st.file_index
                               saves := st.saves ++ [(fn, st.file_index)] }
  else .ok st

/-! ## Accumulator and file rotation: `Core._open_and_save`
(`core.py:508-582`) -/

/-- One 2-D video frame (height × width). -/
abbrev Frame := List (List ℚ)

/-- One worker's measurement dictionary as produced by
`get_measurement_dict` and stored per worker name in the saved
accumulator: the time axis, the optional `data` block (a list of
per-sample rows) and the optional `video` block (a list of camera
channels, each a list of per-sample frames).  The passive fields
(`channel_names`, `sample_rate`, ...) are carried through
`_open_and_save` untouched and are omitted here. -/
structure Measurement where
  time : List ℚ
  data : Option (List (List ℚ))
  video : Option (List (List Frame))
deriving Repr

/-- The saved accumulator: the pickled dictionary mapping worker name to
its measurement entry (Python dicts preserve insertion order). -/
abbrev Accum := List (String × Measurement)

/-- Python dict read `data[name]` / membership test `name in data`. -/
def getEntry (acc : Accum) (name : String) : Option Measurement :=
  match acc with
  | [] => none
  | (k, v) :: rest => if k = name then some v else getEntry rest name

/-- Python dict assignment `data[name] = e`: replace the entry for
`name` in place, or append a new one. -/
def setEntry (acc : Accum) (name : String) (e : Measurement) : Accum :=
  if (getEntry acc name).isSome then
    acc.map fun p => if p.1 = name then (name, e) else p
  else acc ++ [(name, e)]

/-- View of one acquisition source as used by `_open_and_save`: its
name, sample rate and `is_triggered()` poll. -/
structure AcqSave where
  acquisition_name : String
  sample_rate : ℚ
  is_triggered : Bool
deriving Repr

/-- Fresh-entry branch of `_open_and_save` (`core.py:557-559`):
`data[name] = measurement` followed by
`data[name]['time'] += time_last + 1/sample_rate` (a scalar added
elementwise to the time array). -/
def freshEntry (time_last sr : ℚ) (m : Measurement) : Measurement :=
  { m with time := m.time.map fun t => t + time_last + 1 / sr }

/-- Append branch of `_open_and_save` (`core.py:561-575`): shift the
drained relative times past the entry's last stored timestamp (or the
carried-over `time_last` when the entry's time axis is empty,
`core.py:562-565`) and concatenate the time axis, the `data` block
(only when the drained measurement has a `data` key; the key then
missing on the stored entry is a `KeyError`, hence `none`) and the
`video` block (the comprehension
`[concatenate(old[i], new[i]) for i in range(len(new))]`, an
`IndexError` — `none` — when the stored entry has fewer channels). -/
def appendEntry (e : Measurement) (time_last_default sr : ℚ) (m : Measurement) :
    Option Measurement :=
  let time_last : ℚ :=
    match e.time.getLast? with
    | some t => t
    | none => time_last_default
  let new_time := m.time.map fun t => t + time_last + 1 / sr
  let timeCat := e.time ++ new_time
  let dataCat : Option (Option (List (List ℚ))) :=
    match m.data with
    | none => some e.data
    | some nd =>
        match e.data with
        | some ed => some (some (ed ++ nd))
        | none => none
  let videoCat : Option (Option (List (List Frame))) :=
    match m.video with
    | none => some e.video
    | some nv =>
        match e.video with
        | some ev =>
            if nv.length ≤ ev.length then some (some (List.zipWith (· ++ ·) ev nv))
            else none
        | none => none
  match dataCat, videoCat with
  | some d, some v => some { time := timeCat, data := d, video := v }
  | _, _ => none

/-- The `for acq in self.acquisitions` update loop of `_open_and_save`
(`core.py:552-575`): for every source whose `is_triggered()` poll is
true, take its drained measurement (supplied alongside the source) and
either install it as a fresh entry or append to the existing one.
`time_last` is the continuity-offset dictionary built at
`core.py:537-541`. -/
def updateData : List (AcqSave × Measurement) → (String → ℚ) → Accum → Option Accum
  | [], _, acc => some acc
  | (a, m) :: rest, time_last, acc =>
      if a.is_triggered then
        match getEntry acc a.acquisition_name with
        | none =>
            updateData rest time_last
              (setEntry acc a.acquisition_name
                (freshEntry (time_last a.acquisition_name) a.sample_rate m))
        | some e =>
            match appendEntry e (time_last a.acquisition_name) a.sample_rate m with
            | some e2 => updateData rest time_last (setEntry acc a.acquisition_name e2)
            | none => none
      else updateData rest time_last acc

/-- `max_file_size = 200 * 1024 * 1024` bytes (`core.py:520`). -/
def max_file_size : Nat := 200 * 1024 * 1024

/-- One on-disk pickle file as seen by `_open_and_save`: its byte size
(`os.path.getsize`) and its content.

Modelled from the spec: `load_measurement` (imported from
`LDAQ.utils`, whose source is not part of this snapshot) reads a
persisted file back as the accumulator mapping described by the
persisted-file-format interface; it is modelled as returning the
stored `content`. -/
structure FileData where
  size : Nat
  content : Accum
deriving Repr

/-- Continuity-offset dictionary of `core.py:538-539`:
`{acq.acquisition_name: data[acq.acquisition_name]["time"][-1] for acq
in self.acquisitions}` over the previous indexed file's content (a
missing worker entry is a `KeyError` and an empty time axis an
`IndexError`, hence `none`). -/
def buildTimeLast (content : Accum) :
    List (AcqSave × Measurement) → Option (List (String × ℚ))
  | [] => some []
  | (a, _) :: rest =>
      match (getEntry content a.acquisition_name).bind (fun e => e.time.getLast?) with
      | none => none
      | some t => (buildTimeLast content rest).map fun l => (a.acquisition_name, t) :: l

/-- `Core._open_and_save` (`core.py:508-582`) over an abstract
filesystem `fs` (filename to file data; the fixed output directory
`root` is folded into the filename).  Split the base filename, check
the size of the zero-padded indexed file, rotate — incrementing the
index and carrying over each worker's last timestamp from the previous
indexed file — when that size reaches `max_file_size` (otherwise every
offset is 0), load the target file's accumulator if it exists, apply
the update loop, and return the updated index, the written filename
and the accumulator written to it. -/
def openAndSave (fs : String → Option FileData) (ams : List (AcqSave × Measurement))
    (file_name_full : String) (file_index : Nat) : Option (Nat × String × Accum) :=
  let be := splitext file_name_full
  let checkName := checkFileName be.1 be.2 file_index
  let current_file_size : Nat :=
    match fs checkName with
    | some fd => fd.size
    | none => 0
  let rot : Option (Nat × (String → ℚ)) :=
    if max_file_size ≤ current_file_size then
      match fs checkName with
      | none => none
      | some fd =>
          (buildTimeLast fd.content ams).map fun tll =>
            (file_index + 1, fun n => ((tll.lookup n).getD 0))
    else some (file_index, fun _ => 0)
  match rot with
  | none => none
  | some (idx2, time_last) =>
      let writeName := writeFileName be.1 be.2 idx2
      let initial : Accum :=
        match fs writeName with
        | some fd => fd.content
        | none => []
      (updateData ams time_last initial).map fun acc => (idx2, writeName, acc)

/-- A sequence of save ticks against one target file's accumulator,
each tick with its own drained measurements and continuity offsets
(after a rotation the offsets carry the previous file's last
timestamps; otherwise they are 0). -/
def runSaveTicks :
    List (List (AcqSave × Measurement) × (String → ℚ)) → Accum → Option Accum
  | [], acc => some acc
  | (ams, tl) :: rest, acc =>
      match updateData ams tl acc with
      | none => none
      | some acc2 => runSaveTicks rest acc2

/-- Specification-side invariant on one accumulator entry: the time
axis is monotonically non-decreasing and its length equals the first
dimension of the `data` block and of every `video` channel. -/
def EntryInv (e : Measurement) : Prop :=
  e.time.Chain' (· ≤ ·) ∧
  (∀ d ∈ e.data, d.length = e.time.length) ∧
  (∀ v ∈ e.video, ∀ ch ∈ v, ch.length = e.time.length)

/-- Shape signature of a measurement: whether it carries a `data` block,
and its number of video channels. -/
def MeasShape (m : Measurement) : Bool × Option Nat :=
  (m.data.isSome, m.video.map List.length)

/-- Hypotheses on one drained measurement
(`get_measurement_dict(N_points="new")`): relative times non-decreasing
and non-negative, blocks shaped like the time axis. -/
def MeasOK (m : Measurement) : Prop :=
  m.time.Chain' (· ≤ ·) ∧ (∀ t ∈ m.time, 0 ≤ t) ∧
  (∀ d ∈ m.data, d.length = m.time.length) ∧
  (∀ v ∈ m.video, ∀ ch ∈ v, ch.length = m.time.length)

/-- Accumulator-wide invariant relative to a fixed per-worker shape
signature: every stored entry satisfies the entry invariant and has its
worker's shape. -/
def AccumInv (sig : String → Bool × Option Nat) (acc : Accum) : Prop :=
  ∀ p ∈ acc, EntryInv p.2 ∧ MeasShape p.2 = sig p.1

end LDAQ

/-! # Claim theorems -/

/-- C2: the claim states that the concrete filename targeted for writing
by the rotation step is the base filename suffixed with the 4-digit
zero-padded current file index, for every value of the index.  The code
zero-pads only the filename used for the size check (`core.py:523-524`);
the filename it actually loads and writes (`core.py:543`) uses the raw
index, so at index 0 the written file is `..._0.pkl`, not `..._0000.pkl`,
and the two filenames disagree. -/
theorem C2_write_filename_not_zero_padded :
    LDAQ.writeFileName "20230101_120000_Run" ".pkl" 0 = "20230101_120000_Run_0.pkl" ∧
    LDAQ.checkFileName "20230101_120000_Run" ".pkl" 0 = "20230101_120000_Run_0000.pkl" ∧
    LDAQ.writeFileName "20230101_120000_Run" ".pkl" 0 ≠
      LDAQ.checkFileName "20230101_120000_Run" ".pkl" 0 := by
  refine ⟨by decide, by decide, by decide⟩

namespace LDAQ

theorem secondsCalls_length (rs : ℚ) (source : Nat) (level : ℚ) (channel : Nat)
    (duration : ℚ) (presamples : ℤ) (ttype : String) :
    ∀ (rest : List ℚ) (idx : Nat),
      (secondsCalls rs source level channel duration presamples ttype idx rest).length
        = rest.length := by
  intro rest
  induction rest with
  | nil => intro idx; rfl
  | cons r rest ih => intro idx; simp [secondsCalls, ih]

theorem secondsCalls_get (rs : ℚ) (source : Nat) (level : ℚ) (channel : Nat)
    (duration : ℚ) (presamples : ℤ) (ttype : String) :
    ∀ (rest : List ℚ) (idx i : Nat) (r : ℚ), rest[i]? = some r →
      (secondsCalls rs source level channel duration presamples ttype idx rest)[i]?
        = some (if idx + i = source then
            TrigEffect.setTrig level channel duration "seconds" presamples ttype
          else
            TrigEffect.update duration "seconds" (propagatedPresamples rs r presamples)) := by
  intro rest
  induction rest with
  | nil => intro idx i r h; simp at h
  | cons r₀ rest ih =>
      intro idx i r h
      cases i with
      | zero =>
          simp at h
          subst h
          simp [secondsCalls]
      | succ i =>
          simp only [List.getElem?_cons_succ] at h
          have := ih (idx + 1) i r h
          simp only [secondsCalls, List.getElem?_cons_succ, this]
          have harith : idx + 1 + i = idx + (i + 1) := by omega
          rw [harith]

theorem samplesCalls_get (rs : ℚ) (source : Nat) (level : ℚ) (channel : Nat)
    (dInt : ℤ) (presamples : ℤ) (ttype : String) :
    ∀ (rest : List ℚ) (idx i : Nat) (r : ℚ), rest[i]? = some r →
      (samplesCalls rs source level channel dInt presamples ttype idx rest)[i]?
        = some (if idx + i = source then
            TrigEffect.setTrig level channel (dInt : ℚ) "samples" presamples ttype
          else
            TrigEffect.update ((pyInt ((dInt : ℚ) / rs * r) : ℤ) : ℚ) "samples"
              (propagatedPresamples rs r presamples)) := by
  intro rest
  induction rest with
  | nil => intro idx i r h; simp at h
  | cons r₀ rest ih =>
      intro idx i r h
      cases i with
      | zero =>
          simp at h
          subst h
          simp [samplesCalls]
      | succ i =>
          simp only [List.getElem?_cons_succ] at h
          have := ih (idx + 1) i r h
          simp only [samplesCalls, List.getElem?_cons_succ, this]
          have harith : idx + 1 + i = idx + (i + 1) := by omega
          rw [harith]

theorem ok_bind {α β ε : Type} (a : α) (f : α → Except ε β) :
    (Except.ok a >>= f : Except ε β) = f a := rfl

theorem setTriggerLoop_seconds (rates : List ℚ) (source : Nat) (level : ℚ) (channel : Nat)
    (duration : ℚ) (presamples : ℤ) (ttype : String) (rs : ℚ)
    (hs : rates[source]? = some rs) :
    ∀ (rest : List ℚ) (idx : Nat) (st : SetTrigState),
      ∃ ssr, setTriggerLoop rates source level channel duration "seconds" presamples ttype
          idx rest st
        = .ok ⟨st.effects ++ secondsCalls rs source level channel duration presamples ttype idx rest,
            ssr,
            if rest.isEmpty then st.measurement_duration else some duration⟩ := by
  intro rest
  induction rest with
  | nil =>
      intro idx st
      exact ⟨st.source_sample_rate, by simp [setTriggerLoop, secondsCalls]⟩
  | cons r rest ih =>
      intro idx st
      by_cases hidx : idx = source
      · subst hidx
        obtain ⟨ssr, hrec⟩ := ih (idx + 1)
          ⟨st.effects ++ [TrigEffect.setTrig level channel duration "seconds" presamples ttype],
            st.source_sample_rate, some duration⟩
        refine ⟨ssr, ?_⟩
        simp only [setTriggerLoop, if_pos rfl, reduceIte, pure_bind]
        simp only [hrec]
        simp [secondsCalls, List.append_assoc]
      · obtain ⟨ssr, hrec⟩ := ih (idx + 1)
          ⟨st.effects ++ [TrigEffect.update duration "seconds"
              (pyInt ((presamples : ℚ) / rs * r))],
            some rs, some duration⟩
        refine ⟨ssr, ?_⟩
        simp only [setTriggerLoop, if_neg hidx, hs, reduceIte, pure_bind]
        simp only [hrec]
        simp [secondsCalls, if_neg hidx, propagatedPresamples, List.append_assoc]

theorem setTriggerLoop_samples (rates : List ℚ) (source : Nat) (level : ℚ) (channel : Nat)
    (dInt : ℤ) (presamples : ℤ) (ttype : String) (rs : ℚ)
    (hs : rates[source]? = some rs) :
    ∀ (rest : List ℚ) (idx : Nat) (st : SetTrigState),
      st.source_sample_rate = some rs →
      setTriggerLoop rates source level channel (dInt : ℚ) "samples" presamples ttype
          idx rest st
        = .ok ⟨st.effects ++ samplesCalls rs source level channel dInt presamples ttype idx rest,
            some rs,
            if rest.isEmpty then st.measurement_duration else some ((dInt : ℚ) / rs)⟩ := by
  intro rest
  induction rest with
  | nil =>
      intro idx st hst
      cases st
      simp only [SetTrigState.source_sample_rate] at hst
      subst hst
      simp [setTriggerLoop, samplesCalls]
  | cons r rest ih =>
      intro idx st hst
      by_cases hidx : idx = source
      · subst hidx
        have hrec := ih (idx + 1)
          ⟨st.effects ++ [TrigEffect.setTrig level channel (dInt : ℚ) "samples" presamples ttype],
            some rs, some ((dInt : ℚ) / rs)⟩ rfl
        simp only [setTriggerLoop, if_pos rfl, reduceIte, pure_bind, hst]
        simp only [hrec]
        simp [samplesCalls, List.append_assoc]
      · have hrec := ih (idx + 1)
          ⟨st.effects ++ [TrigEffect.update ((pyInt ((dInt : ℚ) / rs * r) : ℤ) : ℚ) "samples"
              (pyInt ((presamples : ℚ) / rs * r))],
            some rs, some ((dInt : ℚ) / rs)⟩ rfl
        simp only [setTriggerLoop, if_neg hidx, hs, reduceIte, pure_bind]
        simp only [hrec]
        simp [samplesCalls, if_neg hidx, propagatedPresamples, List.append_assoc]

end LDAQ

/-- C3 counterexample: the claim states `presamples_t = round(presamples_s / Rs * Rt)`
for every rate pair.  With the trigger on a 3 Hz source, a 2 Hz target and
`presamples = 1`, the code (`core.py:316`, Python `int(...)`) hands the
target `presamples = 0`, while the claimed rounding gives `round(2/3) = 1`. -/
theorem C3_counterexample_presamples_truncated_not_rounded :
    LDAQ.setTrigger [3, 2] 0 5 0 7 "seconds" 1 "abs" =
      .ok ([.setTrig 5 0 7 "seconds" 1 "abs", .update 7 "seconds" 0], some 7) ∧
    (0 : ℤ) ≠ round ((1 : ℚ) / 3 * 2) := by
  constructor
  · simp [LDAQ.setTrigger, LDAQ.setTriggerLoop, LDAQ.pyLower, LDAQ.pyInt]
    norm_num
  · norm_num [round_eq]

/-- C3 amended: trigger propagation converts with Python `int` truncation,
not rounding.  For every trigger-source rate `Rs` (at a valid index) and
every target rate `Rt`: the target receives
`presamples_t = trunc(presamples_s / Rs * Rt)`; with `duration_unit =
"seconds"` the duration reaches every target unchanged (and becomes the
session's measurement duration); with `duration_unit = "samples"` —
reachable without error only when the trigger source is not at index 0,
since otherwise `set_trigger` dies on the unbound local
`source_sample_rate` (`core.py:332`) — the target receives
`trunc(trunc(duration) / Rs * Rt)` samples.  The trigger source itself
receives the spec verbatim (type lowercased).  In particular with workers
at 1000 Hz and 2000 Hz and a trigger on the first with `duration = 2.0 s`,
`presamples = 100`, the second receives `presamples = 200` and
`duration = 2.0 s`. -/
theorem C3_trigger_propagation_truncates :
    (∀ (rates : List ℚ) (source : Nat) (rs level : ℚ) (channel : Nat) (duration : ℚ)
        (presamples : ℤ) (ttype : String), rates[source]? = some rs → rates ≠ [] →
      ∃ effects,
        LDAQ.setTrigger rates source level channel duration "seconds" presamples ttype
          = .ok (effects, some duration) ∧
        effects[source]? = some
          (.setTrig level channel duration "seconds" presamples (LDAQ.pyLower ttype)) ∧
        ∀ i r, rates[i]? = some r → i ≠ source →
          effects[i]? = some (.update duration "seconds"
            (LDAQ.propagatedPresamples rs r presamples)))
    ∧
    (∀ (rates : List ℚ) (source : Nat) (rs level : ℚ) (channel : Nat) (duration : ℚ)
        (presamples : ℤ) (ttype : String), rates[source]? = some rs → source ≠ 0 →
      ∃ effects md,
        LDAQ.setTrigger rates source level channel duration "samples" presamples ttype
          = .ok (effects, md) ∧
        effects[source]? = some
          (.setTrig level channel ((LDAQ.pyInt duration : ℤ) : ℚ) "samples" presamples
            (LDAQ.pyLower ttype)) ∧
        ∀ i r, rates[i]? = some r → i ≠ source →
          effects[i]? = some
            (.update ((LDAQ.propagatedDurationSamples rs r duration : ℤ) : ℚ) "samples"
              (LDAQ.propagatedPresamples rs r presamples)))
    ∧
    LDAQ.setTrigger [1000, 2000] 0 5 0 2 "seconds" 100 "abs"
      = .ok ([.setTrig 5 0 2 "seconds" 100 "abs", .update 2 "seconds" 200], some 2) := by
  refine ⟨?_, ?_, ?_⟩
  · intro rates source rs level channel duration presamples ttype hs hne
    obtain ⟨ssr, hloop⟩ := LDAQ.setTriggerLoop_seconds rates source level channel duration
      presamples (LDAQ.pyLower ttype) rs hs rates 0 ⟨[], none, none⟩
    have hemp : rates.isEmpty = false := by
      cases rates
      · exact absurd rfl hne
      · rfl
    refine ⟨LDAQ.secondsCalls rs source level channel duration presamples
      (LDAQ.pyLower ttype) 0 rates, ?_, ?_, ?_⟩
    · have hu : LDAQ.pyLower "seconds" = "seconds" := by decide
      have hse : ¬ (("seconds" : String) = "samples") := by decide
      simp only [LDAQ.setTrigger, hu, if_neg hse]
      rw [hloop]
      simp [hemp]
    · have := LDAQ.secondsCalls_get rs source level channel duration presamples
        (LDAQ.pyLower ttype) rates 0 source rs hs
      simpa using this
    · intro i r hi hneq
      have := LDAQ.secondsCalls_get rs source level channel duration presamples
        (LDAQ.pyLower ttype) rates 0 i r hi
      simpa [hneq] using this
  · intro rates source rs level channel duration presamples ttype hs hsrc
    cases rates with
    | nil => simp at hs
    | cons r0 rest =>
      obtain ⟨s, rfl⟩ : ∃ s, source = s + 1 := ⟨source - 1, by omega⟩
      have hs' : rest[s]? = some rs := by simpa using hs
      have hloop := LDAQ.setTriggerLoop_samples (r0 :: rest) (s + 1) level channel
        (LDAQ.pyInt duration) presamples (LDAQ.pyLower ttype) rs hs rest 1
        ⟨[.update ((LDAQ.pyInt ((LDAQ.pyInt duration : ℚ) / rs * r0) : ℤ) : ℚ) "samples"
            (LDAQ.pyInt ((presamples : ℚ) / rs * r0))], some rs,
          some ((LDAQ.pyInt duration : ℚ) / rs)⟩ rfl
      refine ⟨LDAQ.TrigEffect.update ((LDAQ.pyInt ((LDAQ.pyInt duration : ℚ) / rs * r0) : ℤ) : ℚ)
          "samples" (LDAQ.pyInt ((presamples : ℚ) / rs * r0)) ::
          LDAQ.samplesCalls rs (s + 1) level channel (LDAQ.pyInt duration) presamples
            (LDAQ.pyLower ttype) 1 rest,
        some ((LDAQ.pyInt duration : ℚ) / rs), ?_, ?_, ?_⟩
      · have hu : LDAQ.pyLower "samples" = "samples" := by decide
        have h0 : (0 : Nat) ≠ s + 1 := by omega
        have hse : ¬ (("samples" : String) = "seconds") := by decide
        simp only [LDAQ.setTrigger, hu, if_pos rfl, LDAQ.setTriggerLoop, if_neg h0, hs,
          pure_bind, if_neg hse, List.nil_append, Nat.zero_add, eq_self_iff_true, if_true]
        rw [hloop]
        simp
      · have := LDAQ.samplesCalls_get rs (s + 1) level channel (LDAQ.pyInt duration)
          presamples (LDAQ.pyLower ttype) rest 1 s rs hs'
        have harith : 1 + s = s + 1 := by omega
        rw [harith] at this
        simp [this]
      · intro i r hi hneq
        cases i with
        | zero =>
            have hr : r0 = r := by simpa using hi
            subst hr
            simp [LDAQ.propagatedDurationSamples, LDAQ.propagatedPresamples]
        | succ i =>
            have hi' : rest[i]? = some r := by simpa using hi
            have hneq' : 1 + i ≠ s + 1 := by omega
            have := LDAQ.samplesCalls_get rs (s + 1) level channel (LDAQ.pyInt duration)
              presamples (LDAQ.pyLower ttype) rest 1 i r hi'
            rw [if_neg hneq'] at this
            simpa [LDAQ.propagatedDurationSamples, LDAQ.propagatedPresamples] using this
  · simp [LDAQ.setTrigger, LDAQ.setTriggerLoop, LDAQ.pyLower, LDAQ.pyInt]
    norm_num

/-- Witness instantiating `C3_trigger_propagation_truncates` on the
1000 Hz / 2000 Hz scenario. -/
theorem C3_trigger_propagation_truncates_witness :
    ∃ effects,
      LDAQ.setTrigger [(1000 : ℚ), 2000] 0 5 0 2 "seconds" 100 "abs" = .ok (effects, some 2) ∧
      effects[0]? = some (.setTrig 5 0 2 "seconds" 100 (LDAQ.pyLower "abs")) ∧
      ∀ i r, ([(1000 : ℚ), 2000] : List ℚ)[i]? = some r → i ≠ 0 →
        effects[i]? = some (.update 2 "seconds" (LDAQ.propagatedPresamples 1000 r 100)) :=
  C3_trigger_propagation_truncates.1 [1000, 2000] 0 1000 5 0 2 100 "abs" rfl (by simp)

/-- C8: the claim states that any `duration_unit` other than `"seconds"`
or `"samples"` (after lowercasing) makes trigger configuration fail
regardless of how many acquisition workers the session has.  The
`KeyError` of `core.py:327` lives only in the non-source branch of the
propagation loop, so a session with a single acquisition worker (or one
where the source is the only worker) accepts the invalid unit without
any error, forwards it verbatim to the worker's own `set_trigger`, and
silently skips the `measurement_duration` update (`core.py:334`,
`pass  # should not happen`); the error does surface once a second,
non-source worker exists. -/
theorem C8_invalid_duration_unit_accepted_with_single_worker :
    LDAQ.setTrigger [1000] 0 5 0 7 "minutes" 1 "abs"
      = .ok ([.setTrig 5 0 7 "minutes" 1 "abs"], none) ∧
    LDAQ.setTrigger [1000, 2000] 0 5 0 7 "minutes" 1 "abs"
      = .error "KeyError: Invalid duration unit specified. Only seconds and samples are possible." := by
  constructor
  · simp [LDAQ.setTrigger, LDAQ.setTriggerLoop, LDAQ.pyLower, LDAQ.pyInt]
  · simp only [LDAQ.setTrigger, LDAQ.setTriggerLoop, LDAQ.pyLower]
    rfl
namespace LDAQ

theorem start_acquisition_irg (s t : CoreState) (l : List Nat)
    (h : start_acquisition s = .ok (t, l)) : t.is_running_global = s.is_running_global := by
  unfold start_acquisition at h
  dsimp only at h
  split at h
  · cases h; rfl
  · split at h
    · cases h
    · cases h; rfl

theorem check_events_tick_irg (s t : CoreState) (l : List Nat)
    (h : check_events_tick s = .ok (t, l)) :
    t.is_running_global =
      (!((s.acquisitions.all fun a => !a.is_running) && decide (0 < s.acquisitions.length)) &&
       (!((s.generations.all fun g => !g) && decide (0 < s.generations.length)) &&
        !((s.controls.all fun c => !c) && decide (0 < s.controls.length)))) := by
  unfold check_events_tick at h
  dsimp only at h
  split at h
  · cases h
  · split at h
    · cases h
    · rename_i heq s₂ acts heq2
      split at heq2
      · split at heq2
        · split at heq2
          · have := start_acquisition_irg _ _ _ heq2
            cases h
            simp only [Bool.and_assoc] at this ⊢
            split <;> split <;> simp_all
          · cases heq2
            cases h
            simp only [Bool.and_assoc]
            split <;> split <;> simp_all
        · cases heq2
          cases h
          simp only [Bool.and_assoc]
          split <;> split <;> simp_all
      · cases heq2
        cases h
        simp only [Bool.and_assoc]
        split <;> split <;> simp_all

theorem categoryAlive_iff (flags : List Bool) :
    (!((flags.all fun f => !f) && decide (0 < flags.length))) = true ↔
      categoryAlive flags := by
  simp [categoryAlive, List.all_eq_true, List.length_pos]
  tauto

theorem categoryAlive_map_iff (l : List AcqView) :
    (!((l.all fun a => !a.is_running) && decide (0 < l.length))) = true ↔
      categoryAlive (l.map AcqView.is_running) := by
  have := categoryAlive_iff (l.map AcqView.is_running)
  simpa [List.all_map, Function.comp] using this

end LDAQ
/-- C6: the session's global running flag is monotone non-increasing over
the monitor's step relation.  Each tick assigns `is_running_global` the
conjunction of the three per-category liveness values (`core.py:206-219`;
a category is alive unless it is non-empty and every member reports not
running, an empty category is vacuously alive), and since a tick only
runs from a state with the flag true (`while self.is_running_global`),
once the flag is false no sequence of monitor steps ever makes it true
again. -/
theorem C6_running_flag_monotone_conjunction :
    (∀ s t : LDAQ.CoreState, LDAQ.MonStep s t →
      (t.is_running_global = true ↔
        (LDAQ.categoryAlive (s.acquisitions.map LDAQ.AcqView.is_running) ∧
         LDAQ.categoryAlive s.generations ∧
         LDAQ.categoryAlive s.controls)))
    ∧
    (∀ s t : LDAQ.CoreState, Relation.ReflTransGen LDAQ.MonStep s t →
      s.is_running_global = false → t.is_running_global = false) := by
  constructor
  · rintro s t ⟨hrun, acts, htick⟩
    rw [LDAQ.check_events_tick_irg s t acts htick]
    simp only [Bool.and_eq_true]
    rw [LDAQ.categoryAlive_map_iff, LDAQ.categoryAlive_iff, LDAQ.categoryAlive_iff]
  · intro s t h hf
    induction h with
    | refl => exact hf
    | tail _ hstep ih => exact absurd ih (by simp [hstep.1])

/-- Witness for C6: a stopped session makes no further monitor step, so
its flag stays false along the reflexive-transitive closure. -/
theorem C6_running_flag_monotone_conjunction_witness :
    (⟨[], [], [], false, false, false, false, false, false, none⟩ :
      LDAQ.CoreState).is_running_global = false :=
  C6_running_flag_monotone_conjunction.2 _ _ .refl rfl

/-- C1: the claim states that an uncaught exception in a task body is
reported and triggers immediate global shutdown, with every other task
observing `running == false` within its poll interval and `run()`
returning.  The fault wrapper `_stop_event_handling` (`core.py:175-189`)
only prints the traceback and sets `stop_event`; no task ever reads
`stop_event` (the TODO at `core.py:154-155` records exactly this), and
the monitor's tick does not consult it.  In a session with two
acquisition workers where the first's `run_acquisition` raises while the
second keeps running, the state below is a fixpoint of the monitor tick:
after any number of monitor ticks `is_running_global` is still true, so
no global shutdown happens and the `while self.is_running_global` loop
of `run()` never exits. -/
theorem C1_worker_exception_sets_only_stop_event :
    LDAQ.stop_event_handling
        ⟨[⟨true, true, true⟩, ⟨true, true, true⟩], [], [], true, true, false, true,
          false, false, some 0⟩
        (.error "Exception in run_acquisition")
      = ⟨[⟨true, true, true⟩, ⟨true, true, true⟩], [], [], true, true, true, true,
          false, false, some 0⟩ ∧
    ∀ n : Nat,
      LDAQ.runTicks n
          ⟨[⟨true, true, true⟩, ⟨true, true, true⟩], [], [], true, true, true, true,
            false, false, some 0⟩
        = .ok ⟨[⟨true, true, true⟩, ⟨true, true, true⟩], [], [], true, true, true, true,
            false, false, some 0⟩ := by
  constructor
  · rfl
  · have hfix : LDAQ.check_events_tick
        ⟨[⟨true, true, true⟩, ⟨true, true, true⟩], [], [], true, true, true, true,
          false, false, some 0⟩
      = .ok (⟨[⟨true, true, true⟩, ⟨true, true, true⟩], [], [], true, true, true, true,
          false, false, some 0⟩, []) := rfl
    intro n
    induction n with
    | zero => rfl
    | succ n ih =>
        rw [LDAQ.runTicks, hfix]
        exact ih

/-- C4 counterexample: the claim states that `start_acquisition` invokes
the trigger-activation primitive of the designated trigger-source worker
(the one selected by `set_trigger`).  In a session whose designated
trigger source is the worker at index 1, `start_acquisition`
(`core.py:363-371`) nevertheless locks and activates
`self.acquisitions[0]` — the first-listed worker, index 0 ≠ 1. -/
theorem C4_counterexample_activates_first_worker :
    LDAQ.start_acquisition
        ⟨[⟨true, true, false⟩, ⟨true, true, false⟩], [], [], true, false, false, false,
          false, true, some 1⟩
      = .ok (⟨[⟨true, true, false⟩, ⟨true, true, false⟩], [], [], true, true, false, false,
          false, true, some 1⟩, [0]) ∧
    (⟨[⟨true, true, false⟩, ⟨true, true, false⟩], [], [], true, false, false, false,
        false, true, some 1⟩ : LDAQ.CoreState).trigger_source_index = some 1 ∧
    (0 : Nat) ≠ 1 := by
  refine ⟨rfl, rfl, by decide⟩

/-- C4 amended: `start_acquisition()` is idempotent — a no-op when the
global `triggered` flag is already set (no activation, no state change);
otherwise it sets the flag and, under the lock of the *first-listed*
acquisition worker (`acquisitions[0]`, regardless of the designated
trigger-source index recorded by `set_trigger`), invokes that first
worker's `activate_trigger` exactly once. -/
theorem C4_amended_idempotent_activates_first_listed :
    (∀ s : LDAQ.CoreState, s.triggered_globally = true →
      LDAQ.start_acquisition s = .ok (s, [])) ∧
    (∀ s : LDAQ.CoreState, s.triggered_globally = false → s.acquisitions ≠ [] →
      LDAQ.start_acquisition s
        = .ok ({ s with triggered_globally := true }, [0])) := by
  constructor
  · intro s h
    unfold LDAQ.start_acquisition
    rw [if_pos h]
  · intro s h hne
    unfold LDAQ.start_acquisition
    rw [if_neg (by simp [h])]
    dsimp only
    cases hacq : s.acquisitions with
    | nil => exact absurd hacq hne
    | cons a rest => simp [hacq]

/-- Witness instantiating `C4_amended_idempotent_activates_first_listed`
on a concrete two-worker session. -/
theorem C4_amended_idempotent_activates_first_listed_witness :
    LDAQ.start_acquisition
        ⟨[⟨true, true, false⟩], [], [], true, false, false, false, false, false, some 0⟩
      = .ok (⟨[⟨true, true, false⟩], [], [], true, true, false, false, false, false,
          some 0⟩, [0]) :=
  C4_amended_idempotent_activates_first_listed.2
    ⟨[⟨true, true, false⟩], [], [], true, false, false, false, false, false, some 0⟩
    rfl (by simp)

/-- C10: the constructor accepts an empty acquisition-source list (only
duplicate names are rejected, `core.py:26-44`), but every monitor tick
dereferences `acquisitions[0]` for the readiness latch
(`core.py:222`) and trigger activation on a fresh (untriggered) session
dereferences `acquisitions[0]` (`core.py:370`), so a session constructed
with zero acquisition workers fails with an `IndexError` on the first
monitor tick or trigger activation instead of running. -/
theorem C10_empty_acquisitions_index_error :
    (∀ gens : List String, LDAQ.hasDuplicateNames gens = false →
      LDAQ.coreInit [] gens = .ok ([], gens)) ∧
    (∀ s : LDAQ.CoreState, s.acquisitions = [] →
      LDAQ.check_events_tick s = .error "IndexError: list index out of range") ∧
    (∀ s : LDAQ.CoreState, s.acquisitions = [] → s.triggered_globally = false →
      LDAQ.start_acquisition s = .error "IndexError: list index out of range") := by
  refine ⟨?_, ?_, ?_⟩
  · intro gens h
    unfold LDAQ.coreInit
    rw [if_neg (by simp [LDAQ.hasDuplicateNames]), if_neg (by simp [h])]
  · intro s h
    unfold LDAQ.check_events_tick
    dsimp only
    rw [h]
  · intro s h htrig
    unfold LDAQ.start_acquisition
    rw [if_neg (by simp [htrig])]
    dsimp only
    rw [h]

/-- Witness instantiating `C10_empty_acquisitions_index_error` on a
concrete zero-acquisition session. -/
theorem C10_empty_acquisitions_index_error_witness :
    LDAQ.coreInit [] ["gen"] = .ok ([], ["gen"]) ∧
    LDAQ.check_events_tick ⟨[], [true], [], true, false, false, false, false, true, none⟩
      = .error "IndexError: list index out of range" ∧
    LDAQ.start_acquisition ⟨[], [true], [], true, false, false, false, false, true, none⟩
      = .error "IndexError: list index out of range" :=
  ⟨C10_empty_acquisitions_index_error.1 ["gen"] rfl,
   C10_empty_acquisitions_index_error.2.1 _ rfl,
   C10_empty_acquisitions_index_error.2.2 _ rfl rfl⟩
/-- C7: the claim states that whenever the trigger fired, exactly one
unconditional final save-tick flushes the remaining data after the
polling loop exits, and that no file is written when the trigger never
fired.  The final flush (`core.py:504-506`) calls
`self._open_and_save(file_name, ...)`, but the local `file_name` is
assigned only inside an in-loop save tick (`core.py:497-500`); when the
trigger fired but the session ended before the first save interval
elapsed (here: interval 10 s, session stops after 1 s), no in-loop tick
ever ran, so the final call raises `UnboundLocalError` and flushes
nothing.  The no-trigger half of the claim does hold: with the trigger
never fired the engine performs no save at all. -/
theorem C7_final_flush_crashes_without_prior_tick :
    (LDAQ.save_measurement_periodically 10 (fun _ i => i) 0
        [⟨1/5, true, true, "20230101_120000_Run.pkl"⟩,
         ⟨2/5, false, true, "20230101_120000_Run.pkl"⟩,
         ⟨1, false, true, "20230101_120000_Run.pkl"⟩] true
      = .error "UnboundLocalError: local variable file_name referenced before assignment") ∧
    (LDAQ.saveLoop 10 (fun _ i => i)
        [⟨1/5, true, true, "20230101_120000_Run.pkl"⟩,
         ⟨2/5, false, true, "20230101_120000_Run.pkl"⟩,
         ⟨1, false, true, "20230101_120000_Run.pkl"⟩]
        ⟨0, 0, false, none, 0, []⟩).saves = [] ∧
    (LDAQ.save_measurement_periodically 10 (fun _ i => i) 0
        [⟨1/5, true, false, "20230101_120000_Run.pkl"⟩,
         ⟨2/5, false, false, "20230101_120000_Run.pkl"⟩,
         ⟨1, false, false, "20230101_120000_Run.pkl"⟩] false
      = .ok ⟨0, 0, false, none, 1/5, []⟩) := by
  refine ⟨?_, ?_, ?_⟩ <;>
    norm_num [LDAQ.save_measurement_periodically, LDAQ.saveLoop, LDAQ.delay_saving]
namespace LDAQ

theorem chain_map_shift (l : List ℚ) (c d : ℚ) (h : l.Chain' (· ≤ ·)) :
    (l.map fun t => t + c + d).Chain' (· ≤ ·) := by
  rw [List.chain'_map]
  exact h.imp fun a b hab => by linarith

theorem freshEntry_inv (tl sr : ℚ) (m : Measurement) (hm : MeasOK m) :
    EntryInv (freshEntry tl sr m) ∧ MeasShape (freshEntry tl sr m) = MeasShape m := by
  obtain ⟨hchain, _, hdata, hvideo⟩ := hm
  refine ⟨⟨chain_map_shift _ _ _ hchain, ?_, ?_⟩, rfl⟩
  · intro d hd
    simpa [freshEntry] using hdata d hd
  · intro v hv ch hch
    simpa [freshEntry] using hvideo v hv ch hch

theorem freshEntry_time_head (tl sr : ℚ) (m : Measurement) :
    (freshEntry tl sr m).time.head? = m.time.head?.map fun t => t + tl + 1 / sr := by
  simp [freshEntry, List.head?_map]

theorem mem_zipWith_append_length {α : Type} :
    ∀ (as bs : List (List α)) (L1 L2 : Nat),
      (∀ x ∈ as, x.length = L1) → (∀ x ∈ bs, x.length = L2) →
      ∀ c ∈ List.zipWith (· ++ ·) as bs, c.length = L1 + L2 := by
  intro as
  induction as with
  | nil => intro bs L1 L2 _ _ c hc; simp at hc
  | cons a as ih =>
      intro bs L1 L2 ha hb c hc
      cases bs with
      | nil => simp at hc
      | cons b bs =>
          simp only [List.zipWith_cons_cons, List.mem_cons] at hc
          rcases hc with rfl | hc
          · simp [ha a (by simp), hb b (by simp)]
          · exact ih bs L1 L2 (fun x hx => ha x (by simp [hx]))
              (fun x hx => hb x (by simp [hx])) c hc

end LDAQ
namespace LDAQ

theorem appendEntry_ok (e m : Measurement) (tld sr : ℚ) (hsr : 0 < sr)
    (he : EntryInv e) (hm : MeasOK m) (hsh : MeasShape e = MeasShape m) :
    ∃ e2, appendEntry e tld sr m = some e2 ∧ EntryInv e2 ∧ MeasShape e2 = MeasShape e := by
  obtain ⟨hec, hed, hev⟩ := he
  obtain ⟨hmc, hmn, hmd, hmv⟩ := hm
  have hshd : e.data.isSome = m.data.isSome := congrArg Prod.fst hsh
  have hshv : e.video.map List.length = m.video.map List.length := congrArg Prod.snd hsh
  have htcat : (e.time ++ m.time.map fun t => t +
      (match e.time.getLast? with | some t => t | none => tld) + 1 / sr).Chain' (· ≤ ·) := by
    rw [List.chain'_append]
    refine ⟨hec, chain_map_shift _ _ _ hmc, ?_⟩
    intro x hx y hy
    rw [Option.mem_def] at hx
    simp only [hx] at hy
    rw [List.head?_map] at hy
    rw [Option.mem_def, Option.map_eq_some'] at hy
    obtain ⟨t0, ht0, rfl⟩ := hy
    have ht0m : t0 ∈ m.time := List.mem_of_mem_head? ht0
    have h1 : 0 < 1 / sr := by positivity
    have h2 : 0 ≤ t0 := hmn t0 ht0m
    linarith
  have htlen : (e.time ++ m.time.map fun t => t +
      (match e.time.getLast? with | some t => t | none => tld) + 1 / sr).length
      = e.time.length + m.time.length := by simp
  cases hmdat : m.data with
  | none =>
      have hedat : e.data = none := by
        cases hE : e.data with
        | none => rfl
        | some ed => rw [hmdat, hE] at hshd; simp at hshd
      cases hmvid : m.video with
      | none =>
          have hevid : e.video = none := by
            cases hE : e.video with
            | none => rfl
            | some ev => rw [hmvid, hE] at hshv; simp at hshv
          simp only [appendEntry, hmdat, hedat, hmvid, hevid]
          refine ⟨_, rfl, ⟨htcat, by simp, by simp⟩, by simp [MeasShape, hedat, hevid]⟩
      | some nv =>
          obtain ⟨ev, hevid, hlenv⟩ : ∃ ev, e.video = some ev ∧ ev.length = nv.length := by
            rw [hmvid] at hshv
            obtain ⟨ev, hE, hL⟩ := Option.map_eq_some'.mp hshv
            exact ⟨ev, hE, hL⟩
          have hle : nv.length ≤ ev.length := le_of_eq hlenv.symm
          simp only [appendEntry, hmdat, hedat, hmvid, hevid, if_pos hle]
          refine ⟨_, rfl, ⟨htcat, by simp, ?_⟩, ?_⟩
          · intro v hv ch hch
            simp only [Option.mem_def, Option.some.injEq] at hv
            subst hv
            rw [htlen]
            refine mem_zipWith_append_length ev nv e.time.length m.time.length
              (fun x hx => hev ev (by rw [hevid]; rfl) x hx)
              (fun x hx => hmv nv (by rw [hmvid]; rfl) x hx) ch hch
          · simp [MeasShape, hedat, hevid, hmdat, hlenv]
  | some nd =>
      obtain ⟨ed, hedat⟩ : ∃ ed, e.data = some ed := by
        rw [hmdat] at hshd
        exact Option.isSome_iff_exists.mp (by rw [hshd]; rfl)
      have hedlen : ed.length = e.time.length := hed ed (by rw [hedat]; rfl)
      have hndlen : nd.length = m.time.length := hmd nd (by rw [hmdat]; rfl)
      cases hmvid : m.video with
      | none =>
          have hevid : e.video = none := by
            cases hE : e.video with
            | none => rfl
            | some ev => rw [hmvid, hE] at hshv; simp at hshv
          simp only [appendEntry, hmdat, hedat, hmvid, hevid]
          refine ⟨_, rfl, ⟨htcat, ?_, by simp⟩, by simp [MeasShape, hedat, hevid]⟩
          intro d hd
          simp only [Option.mem_def, Option.some.injEq] at hd
          subst hd
          rw [htlen]
          simp [hedlen, hndlen]
      | some nv =>
          obtain ⟨ev, hevid, hlenv⟩ : ∃ ev, e.video = some ev ∧ ev.length = nv.length := by
            rw [hmvid] at hshv
            obtain ⟨ev, hE, hL⟩ := Option.map_eq_some'.mp hshv
            exact ⟨ev, hE, hL⟩
          have hle : nv.length ≤ ev.length := le_of_eq hlenv.symm
          simp only [appendEntry, hmdat, hedat, hmvid, hevid, if_pos hle]
          refine ⟨_, rfl, ⟨htcat, ?_, ?_⟩, ?_⟩
          · intro d hd
            simp only [Option.mem_def, Option.some.injEq] at hd
            subst hd
            rw [htlen]
            simp [hedlen, hndlen]
          · intro v hv ch hch
            simp only [Option.mem_def, Option.some.injEq] at hv
            subst hv
            rw [htlen]
            refine mem_zipWith_append_length ev nv e.time.length m.time.length
              (fun x hx => hev ev (by rw [hevid]; rfl) x hx)
              (fun x hx => hmv nv (by rw [hmvid]; rfl) x hx) ch hch
          · simp [MeasShape, hedat, hevid, hmdat, hlenv]

end LDAQ
namespace LDAQ

theorem getEntry_mem {acc : Accum} {n : String} {e : Measurement}
    (h : getEntry acc n = some e) : (n, e) ∈ acc := by
  induction acc with
  | nil => simp [getEntry] at h
  | cons p rest ih =>
      obtain ⟨k, v⟩ := p
      by_cases hk : k = n
      · subst hk
        simp only [getEntry, eq_self_iff_true, if_true, Option.some.injEq] at h
        subst h
        exact List.mem_cons_self _ _
      · simp only [getEntry, if_neg hk] at h
        exact List.mem_cons_of_mem _ (ih h)

theorem mem_setEntry {acc : Accum} {n : String} {e : Measurement}
    {p : String × Measurement} (h : p ∈ setEntry acc n e) : p ∈ acc ∨ p = (n, e) := by
  unfold setEntry at h
  split at h
  · obtain ⟨q, hq, hfq⟩ := List.mem_map.mp h
    by_cases hqn : q.1 = n
    · right
      rw [← hfq, if_pos hqn]
    · left
      rw [← hfq, if_neg hqn]
      exact hq
  · rcases List.mem_append.mp h with h | h
    · exact Or.inl h
    · right
      simpa using h

theorem accumInv_setEntry (sig : String → Bool × Option Nat) (acc : Accum)
    (n : String) (e2 : Measurement) (hacc : AccumInv sig acc) (hinv : EntryInv e2)
    (hsh : MeasShape e2 = sig n) : AccumInv sig (setEntry acc n e2) := by
  intro p hp
  rcases mem_setEntry hp with hp | hp
  · exact hacc p hp
  · subst hp
    exact ⟨hinv, hsh⟩

theorem updateData_inv (sig : String → Bool × Option Nat) :
    ∀ (ams : List (AcqSave × Measurement)) (tl : String → ℚ) (acc : Accum),
      AccumInv sig acc →
      (∀ p ∈ ams, 0 < p.1.sample_rate ∧ MeasOK p.2 ∧
        MeasShape p.2 = sig p.1.acquisition_name) →
      ∃ acc2, updateData ams tl acc = some acc2 ∧ AccumInv sig acc2 := by
  intro ams
  induction ams with
  | nil => exact fun tl acc hacc _ => ⟨acc, rfl, hacc⟩
  | cons pm rest ih =>
      obtain ⟨a, m⟩ := pm
      intro tl acc hacc hams
      obtain ⟨hsr, hmok, hmsh⟩ := hams (a, m) (List.mem_cons_self _ _)
      have hrest := fun p hp => hams p (List.mem_cons_of_mem _ hp)
      by_cases htr : a.is_triggered
      · cases hget : getEntry acc a.acquisition_name with
        | none =>
            have hfresh := freshEntry_inv (tl a.acquisition_name) a.sample_rate m hmok
            obtain ⟨acc2, hrun, hinv2⟩ := ih tl
              (setEntry acc a.acquisition_name
                (freshEntry (tl a.acquisition_name) a.sample_rate m))
              (accumInv_setEntry sig acc _ _ hacc hfresh.1 (hfresh.2.trans hmsh))
              hrest
            exact ⟨acc2, by simp only [updateData, htr, if_pos, hget, hrun], hinv2⟩
        | some e =>
            obtain ⟨hei, hesh⟩ := hacc (a.acquisition_name, e) (getEntry_mem hget)
            have hsh2 : MeasShape e = MeasShape m := by rw [hesh, ← hmsh]
            obtain ⟨e2, happ, hinv2, hsh3⟩ :=
              appendEntry_ok e m (tl a.acquisition_name) a.sample_rate hsr hei hmok hsh2
            obtain ⟨acc2, hrun, hinv3⟩ := ih tl
              (setEntry acc a.acquisition_name e2)
              (accumInv_setEntry sig acc _ _ hacc hinv2 (by rw [hsh3, hesh]))
              hrest
            exact ⟨acc2, by simp only [updateData, htr, if_pos, hget, happ, hrun], hinv3⟩
      · have htr2 : a.is_triggered = false := by simpa using htr
        obtain ⟨acc2, hrun, hinv2⟩ := ih tl acc hacc hrest
        exact ⟨acc2, by simp only [updateData, htr2, Bool.false_eq_true, if_false, hrun],
          hinv2⟩

end LDAQ

/-- C9: for every worker entry in the saved accumulator, after any
number of save ticks and rotations, the stored time sequence is
monotonically non-decreasing and its length equals the first dimension
of the co-indexed `data` block and of every `video` channel — provided
every drained measurement has non-decreasing, non-negative relative
times, blocks shaped like its time axis, and the worker's fixed shape
signature (same presence of `data`, same number of video channels).
Rotations are covered because a rotation only swaps in a target
accumulator that is empty or was itself written by previous save ticks
(any accumulator satisfying the invariant), and supplies different
continuity offsets, over which the statement quantifies. -/
theorem C9_accumulator_invariant_preserved
    (sig : String → Bool × Option Nat)
    (steps : List (List (LDAQ.AcqSave × LDAQ.Measurement) × (String → ℚ)))
    (acc : LDAQ.Accum) (hacc : LDAQ.AccumInv sig acc)
    (hsteps : ∀ st ∈ steps, ∀ p ∈ st.1, 0 < p.1.sample_rate ∧ LDAQ.MeasOK p.2 ∧
      LDAQ.MeasShape p.2 = sig p.1.acquisition_name) :
    ∃ acc2, LDAQ.runSaveTicks steps acc = some acc2 ∧ LDAQ.AccumInv sig acc2 := by
  induction steps generalizing acc with
  | nil => exact ⟨acc, rfl, hacc⟩
  | cons st rest ih =>
      obtain ⟨ams, tl⟩ := st
      obtain ⟨acc1, hrun1, hinv1⟩ := LDAQ.updateData_inv sig ams tl acc hacc
        (hsteps (ams, tl) (List.mem_cons_self _ _))
      obtain ⟨acc2, hrun2, hinv2⟩ := ih acc1 hinv1
        (fun s hs p hp => hsteps s (List.mem_cons_of_mem _ hs) p hp)
      exact ⟨acc2, by simp only [LDAQ.runSaveTicks, hrun1, hrun2], hinv2⟩

/-- Witness instantiating `C9_accumulator_invariant_preserved` on one
concrete save tick over an empty accumulator. -/
theorem C9_accumulator_invariant_preserved_witness :
    ∃ acc2,
      LDAQ.runSaveTicks
          [([(⟨"a", 1, true⟩, ⟨[0, 1], none, none⟩)], fun _ => 0)] []
        = some acc2 ∧
      LDAQ.AccumInv (fun _ => (false, none)) acc2 :=
  C9_accumulator_invariant_preserved (fun _ => (false, none))
    [([(⟨"a", 1, true⟩, ⟨[0, 1], none, none⟩)], fun _ => 0)] []
    (by intro p hp; simp at hp)
    (by
      intro st hst p hp
      simp only [List.mem_singleton] at hst
      subst hst
      simp only [List.mem_singleton] at hp
      subst hp
      refine ⟨by norm_num, ⟨?_, ?_, by simp, by simp⟩, by simp [LDAQ.MeasShape]⟩
      · simp [List.chain'_cons]
      · intro t ht
        simp at ht
        rcases ht with rfl | rfl <;> norm_num)
namespace LDAQ

theorem getEntry_map_replace :
    ∀ (acc : Accum) (n : String) (e : Measurement), (getEntry acc n).isSome = true →
      getEntry (acc.map fun p => if p.1 = n then (n, e) else p) n = some e := by
  intro acc n e
  induction acc with
  | nil => intro h; simp [getEntry] at h
  | cons p rest ih =>
      obtain ⟨k, v⟩ := p
      intro h
      by_cases hk : k = n
      · subst hk
        rw [List.map_cons, if_pos rfl]
        simp only [getEntry]
        rw [if_true]
      · rw [List.map_cons, if_neg hk]
        simp only [getEntry] at h ⊢
        rw [if_neg hk] at h ⊢
        exact ih h

theorem getEntry_append_right :
    ∀ (acc : Accum) (n : String) (e : Measurement), getEntry acc n = none →
      getEntry (acc ++ [(n, e)]) n = some e := by
  intro acc n e
  induction acc with
  | nil =>
      intro _
      simp only [List.nil_append, getEntry]
      rw [if_true]
  | cons p rest ih =>
      obtain ⟨k, v⟩ := p
      intro h
      simp only [getEntry] at h
      by_cases hk : k = n
      · rw [if_pos hk] at h
        cases h
      · rw [if_neg hk] at h
        simp only [List.cons_append, getEntry]
        rw [if_neg hk]
        exact ih h

theorem getEntry_setEntry_self (acc : Accum) (n : String) (e : Measurement) :
    getEntry (setEntry acc n e) n = some e := by
  unfold setEntry
  split
  · rename_i hs
    exact getEntry_map_replace acc n e hs
  · rename_i hs
    exact getEntry_append_right acc n e (Option.not_isSome_iff_eq_none.mp (by simpa using hs))

theorem getEntry_map_replace_ne :
    ∀ (acc : Accum) (n n2 : String) (e : Measurement), n2 ≠ n →
      getEntry (acc.map fun p => if p.1 = n then (n, e) else p) n2 = getEntry acc n2 := by
  intro acc n n2 e hne
  induction acc with
  | nil => rfl
  | cons p rest ih =>
      obtain ⟨k, v⟩ := p
      by_cases hk : k = n
      · subst hk
        rw [List.map_cons, if_pos rfl]
        simp only [getEntry]
        rw [if_neg (Ne.symm hne), if_neg (fun h : k = n2 => hne (h ▸ rfl))]
        exact ih
      · rw [List.map_cons, if_neg hk]
        simp only [getEntry]
        by_cases hk2 : k = n2
        · rw [if_pos hk2, if_pos hk2]
        · rw [if_neg hk2, if_neg hk2]
          exact ih

theorem getEntry_append_ne :
    ∀ (acc : Accum) (n n2 : String) (e : Measurement), n2 ≠ n →
      getEntry (acc ++ [(n, e)]) n2 = getEntry acc n2 := by
  intro acc n n2 e hne
  induction acc with
  | nil =>
      simp only [List.nil_append, getEntry]
      rw [if_neg (Ne.symm hne)]
  | cons p rest ih =>
      obtain ⟨k, v⟩ := p
      simp only [List.cons_append, getEntry]
      by_cases hk2 : k = n2
      · rw [if_pos hk2, if_pos hk2]
      · rw [if_neg hk2, if_neg hk2]
        exact ih

theorem getEntry_setEntry_ne (acc : Accum) (n n2 : String) (e : Measurement)
    (h : n2 ≠ n) : getEntry (setEntry acc n e) n2 = getEntry acc n2 := by
  unfold setEntry
  split
  · exact getEntry_map_replace_ne acc n n2 e h
  · exact getEntry_append_ne acc n n2 e h

end LDAQ
namespace LDAQ

theorem updateData_getEntry_untouched :
    ∀ (ams : List (AcqSave × Measurement)) (tl : String → ℚ) (acc acc2 : Accum)
      (n : String),
      (∀ p ∈ ams, p.1.acquisition_name ≠ n) → updateData ams tl acc = some acc2 →
      getEntry acc2 n = getEntry acc n := by
  intro ams
  induction ams with
  | nil =>
      intro tl acc acc2 n _ h
      simp only [updateData, Option.some.injEq] at h
      rw [← h]
  | cons pm rest ih =>
      obtain ⟨a, m⟩ := pm
      intro tl acc acc2 n hn h
      have han : a.acquisition_name ≠ n := hn (a, m) (List.mem_cons_self _ _)
      have hrest : ∀ p ∈ rest, p.1.acquisition_name ≠ n :=
        fun p hp => hn p (List.mem_cons_of_mem _ hp)
      simp only [updateData] at h
      split at h
      · split at h
        · have := ih tl _ acc2 n hrest h
          rw [this, getEntry_setEntry_ne _ _ _ _ (Ne.symm han)]
        · split at h
          · have := ih tl _ acc2 n hrest h
            rw [this, getEntry_setEntry_ne _ _ _ _ (Ne.symm han)]
          · cases h
      · exact ih tl acc acc2 n hrest h

theorem updateData_all_fresh :
    ∀ (ams : List (AcqSave × Measurement)) (tl : String → ℚ) (acc : Accum),
      (ams.map fun p => p.1.acquisition_name).Nodup →
      (∀ p ∈ ams, getEntry acc p.1.acquisition_name = none) →
      ∃ acc2, updateData ams tl acc = some acc2 ∧
        ∀ p ∈ ams, p.1.is_triggered = true →
          getEntry acc2 p.1.acquisition_name
            = some (freshEntry (tl p.1.acquisition_name) p.1.sample_rate p.2) := by
  intro ams
  induction ams with
  | nil => exact fun tl acc _ _ => ⟨acc, rfl, fun p hp => absurd hp (List.not_mem_nil p)⟩
  | cons pm rest ih =>
      obtain ⟨a, m⟩ := pm
      intro tl acc hnd hnone
      rw [List.map_cons, List.nodup_cons] at hnd
      obtain ⟨hnotin, hnd2⟩ := hnd
      have hrestne : ∀ p ∈ rest, p.1.acquisition_name ≠ a.acquisition_name := by
        intro p hp he
        exact hnotin (he ▸ List.mem_map_of_mem (fun q => q.1.acquisition_name) hp)
      by_cases htr : a.is_triggered
      · have hget : getEntry acc a.acquisition_name = none :=
          hnone (a, m) (List.mem_cons_self _ _)
        have hnone2 : ∀ p ∈ rest,
            getEntry (setEntry acc a.acquisition_name
              (freshEntry (tl a.acquisition_name) a.sample_rate m)) p.1.acquisition_name
              = none := by
          intro p hp
          rw [getEntry_setEntry_ne _ _ _ _ (hrestne p hp)]
          exact hnone p (List.mem_cons_of_mem _ hp)
        obtain ⟨acc2, hrun, hprop⟩ := ih tl _ hnd2 hnone2
        refine ⟨acc2, by simp only [updateData, htr, if_pos, hget, hrun], ?_⟩
        intro p hp htrp
        rcases List.mem_cons.mp hp with rfl | hp
        · rw [updateData_getEntry_untouched rest tl _ acc2 _ hrestne hrun]
          exact getEntry_setEntry_self _ _ _
        · exact hprop p hp htrp
      · have htr2 : a.is_triggered = false := by simpa using htr
        obtain ⟨acc2, hrun, hprop⟩ := ih tl acc hnd2
          (fun p hp => hnone p (List.mem_cons_of_mem _ hp))
        refine ⟨acc2,
          by simp only [updateData, htr2, Bool.false_eq_true, if_false, hrun], ?_⟩
        intro p hp htrp
        rcases List.mem_cons.mp hp with rfl | hp
        · rw [htr2] at htrp; cases htrp
        · exact hprop p hp htrp

theorem buildTimeLast_lookup :
    ∀ (content : Accum) (ams : List (AcqSave × Measurement)) (tll : List (String × ℚ))
      (a : AcqSave) (m : Measurement) (t : ℚ),
      buildTimeLast content ams = some tll →
      (ams.map fun p => p.1.acquisition_name).Nodup →
      (a, m) ∈ ams →
      (getEntry content a.acquisition_name).bind (fun e => e.time.getLast?) = some t →
      tll.lookup a.acquisition_name = some t := by
  intro content ams
  induction ams with
  | nil => intro tll a m t _ _ hmem; simp at hmem
  | cons pm rest ih =>
      obtain ⟨b, mb⟩ := pm
      intro tll a m t hbt hnd hmem hprev
      rw [List.map_cons, List.nodup_cons] at hnd
      obtain ⟨hnotin, hnd2⟩ := hnd
      simp only [buildTimeLast] at hbt
      cases hb : (getEntry content b.acquisition_name).bind (fun e => e.time.getLast?) with
      | none => rw [hb] at hbt; cases hbt
      | some tb =>
          rw [hb] at hbt
          cases hrest : buildTimeLast content rest with
          | none => rw [hrest] at hbt; cases hbt
          | some tll2 =>
              rw [hrest] at hbt
              simp only [Option.map_some', Option.some.injEq] at hbt
              subst hbt
              rcases List.mem_cons.mp hmem with heq | hmem2
              · have hab : a = b := congrArg Prod.fst heq
                subst hab
                rw [hprev] at hb
                cases hb
                simp [List.lookup]
              · have hne : a.acquisition_name ≠ b.acquisition_name := by
                  intro he
                  exact hnotin
                    (he ▸ List.mem_map_of_mem (fun q => q.1.acquisition_name) hmem2)
                have hbeq : (a.acquisition_name == b.acquisition_name) = false := by
                  simpa using hne
                simp only [List.lookup, hbeq]
                exact ih tll2 a m t hrest hnd2 hmem2 hprev

end LDAQ
/-- C5: when a save tick rotates because the current indexed file's size
is at or above 200 MiB, the per-worker last timestamp of the previous
indexed file is carried over as the continuity offset, and — given that
the worker's drained relative times start at 0 — the first timestamp
written into the newly created file equals
`previous_file_last_time + 1/sample_rate` (`core.py:534-559`). -/
theorem C5_rotation_preserves_time_continuity
    (fs : String → Option LDAQ.FileData) (ams : List (LDAQ.AcqSave × LDAQ.Measurement))
    (fname base ext : String) (idx : Nat) (fd : LDAQ.FileData)
    (tll : List (String × ℚ)) (a : LDAQ.AcqSave) (m : LDAQ.Measurement) (tlast : ℚ)
    (hsplit : LDAQ.splitext fname = (base, ext))
    (hck : fs (LDAQ.checkFileName base ext idx) = some fd)
    (hsz : LDAQ.max_file_size ≤ fd.size)
    (hbt : LDAQ.buildTimeLast fd.content ams = some tll)
    (hnew : fs (LDAQ.writeFileName base ext (idx + 1)) = none)
    (hnd : (ams.map fun p => p.1.acquisition_name).Nodup)
    (hmem : (a, m) ∈ ams) (htr : a.is_triggered = true)
    (hprev : (LDAQ.getEntry fd.content a.acquisition_name).bind
      (fun e => e.time.getLast?) = some tlast)
    (hhead : m.time.head? = some 0) :
    ∃ acc2, LDAQ.openAndSave fs ams fname idx
        = some (idx + 1, LDAQ.writeFileName base ext (idx + 1), acc2) ∧
      ∃ e2, LDAQ.getEntry acc2 a.acquisition_name = some e2 ∧
        e2.time.head? = some (tlast + 1 / a.sample_rate) := by
  obtain ⟨acc2, hrun, hprop⟩ := LDAQ.updateData_all_fresh ams
    (fun n => ((tll.lookup n).getD 0)) [] hnd (fun p _ => rfl)
  have htlf : ((tll.lookup a.acquisition_name).getD 0) = tlast := by
    rw [LDAQ.buildTimeLast_lookup fd.content ams tll a m tlast hbt hnd hmem hprev]
    rfl
  refine ⟨acc2, ?_, ?_⟩
  · simp only [LDAQ.openAndSave, hsplit, hck, if_pos hsz, hbt, Option.map_some', hnew,
      hrun, Option.map_some']
  · refine ⟨LDAQ.freshEntry tlast a.sample_rate m, ?_, ?_⟩
    · have := hprop (a, m) hmem htr
      rw [htlf] at this
      exact this
    · rw [LDAQ.freshEntry_time_head, hhead]
      simp only [Option.map_some', Option.some.injEq]
      ring

/-- Witness instantiating `C5_rotation_preserves_time_continuity` on a
concrete rotation: the previous indexed file ends at t = 5 for worker
"a" (2 Hz), so the fresh file's first timestamp is 5 + 1/2. -/
theorem C5_rotation_preserves_time_continuity_witness :
    ∃ acc2,
      LDAQ.openAndSave
          (fun s => if s = LDAQ.checkFileName "20230101_120000_Run" ".pkl" 0 then
            some ⟨LDAQ.max_file_size, [("a", ⟨[5], none, none⟩)]⟩ else none)
          [(⟨"a", 2, true⟩, ⟨[0], none, none⟩)]
          "20230101_120000_Run.pkl" 0
        = some (1, LDAQ.writeFileName "20230101_120000_Run" ".pkl" 1, acc2) ∧
      ∃ e2, LDAQ.getEntry acc2 "a" = some e2 ∧
        e2.time.head? = some (5 + 1 / 2) :=
  C5_rotation_preserves_time_continuity
    (fun s => if s = LDAQ.checkFileName "20230101_120000_Run" ".pkl" 0 then
      some ⟨LDAQ.max_file_size, [("a", ⟨[5], none, none⟩)]⟩ else none)
    [(⟨"a", 2, true⟩, ⟨[0], none, none⟩)]
    "20230101_120000_Run.pkl" "20230101_120000_Run" ".pkl" 0
    ⟨LDAQ.max_file_size, [("a", ⟨[5], none, none⟩)]⟩ [("a", 5)]
    ⟨"a", 2, true⟩ ⟨[0], none, none⟩ 5
    (by decide) rfl le_rfl rfl
    rfl (by simp) (by simp) rfl rfl rfl
